import Mathlib

/-
  Shallow embedding of the CasADi sparse matrix core (src/casadi/matrix/matrix.hpp).
  The class Matrix<T> derives from std::vector<T> (the value storage) and keeps a
  compressed-row-storage pattern in col_ and rowind_ next to the dimensions nrow_
  and ncol_.  C++ int indices are modelled as Int; the fallible accessors return
  Except values distinguishing the CasadiException throws of the source from
  std::out_of_range (std::vector::at) and from executions that the C++ standard
  leaves undefined (operator[] or an iterator offset outside the valid range).
-/

namespace CasADi

/-- Error outcomes of the embedded code: indexError, dimensionError and shapeError
model the CasadiException throws of the source (carrying the exact message
string, named after the error taxonomy of the spec), outOfRange models
std::out_of_range thrown by std::vector::at, and ub marks an execution that the
C++ standard leaves undefined. -/
inductive MErr where
  | indexError : String → MErr
  | dimensionError : String → MErr
  | shapeError : String → MErr
  | outOfRange : MErr
  | ub : MErr
  deriving DecidableEq, Repr

/-- State of a CasADi::Matrix<T> object: the inherited std::vector<T> value
storage, the column vector col_, the row offset vector rowind_, and the
dimensions nrow_ and ncol_ (matrix.hpp lines 40 and 129-132). -/
structure Matrix (T : Type) where
  nrow : Int
  ncol : Int
  values : List T
  col_ : List Int
  rowind_ : List Int
  deriving DecidableEq, Repr

variable {T : Type}

/-- Shorthand for reading an integer vector at a Nat position, defaulting to 0. -/
def gI (l : List Int) (k : Nat) : Int := l.getD k 0

/-- Read through std::vector::at with a C++ int index: std::out_of_range when the
index is not in [0, size). -/
def vecAt {α : Type} (l : List α) (k : Int) : Except MErr α :=
  if 0 ≤ k then
    match l[k.toNat]? with
    | some a => .ok a
    | none => .error .outOfRange
  else .error .outOfRange

/-- Read through std::vector::operator[] with a C++ int index: undefined
behaviour when the index is not in [0, size). -/
def vecIdx {α : Type} (l : List α) (k : Int) : Except MErr α :=
  if 0 ≤ k then
    match l[k.toNat]? with
    | some a => .ok a
    | none => .error .ub
  else .error .ub

/-- Matrix<T>::size1 (matrix.hpp lines 173-175). -/
def Matrix.size1 (M : Matrix T) : Int := M.nrow

/-- Matrix<T>::size2 (matrix.hpp lines 178-180). -/
def Matrix.size2 (M : Matrix T) : Int := M.ncol

/-- Matrix<T>::numel (matrix.hpp lines 183-185). -/
def Matrix.numel (M : Matrix T) : Int := M.size1 * M.size2

/-- Matrix<T>::empty (matrix.hpp lines 209-211). -/
def Matrix.empty (M : Matrix T) : Bool := M.numel == 0

/-- Matrix<T>::scalar (matrix.hpp lines 214-216). -/
def Matrix.scalar (M : Matrix T) : Bool := M.size1 == 1 && M.size2 == 1

/-- Matrix<T>::vector (matrix.hpp lines 219-221). -/
def Matrix.vector (M : Matrix T) : Bool := M.size2 == 1

/-- Loop of Matrix<T>::getElement (matrix.hpp lines 140-145): scan the row slice
from position ind; fuel counts the remaining iterations of
for(ind = rowind_.at(i); ind < rowind_.at(i+1); ++ind), so fuel reaches 0 exactly
when ind reaches rowind_.at(i+1).  The loop returns values.at(ind) when
col_[ind] == j, breaks when col_[ind] > j, and the function returns 0 when the
loop stops without a hit. -/
def scanGet [Zero T] (M : Matrix T) (j : Int) : Nat → Int → Except MErr T
  | 0, _ => .ok 0
  | fuel+1, ind =>
    match vecIdx M.col_ ind with
    | .error e => .error e
    | .ok c =>
      if c = j then vecAt M.values ind
      else if c > j then .ok 0
      else scanGet M j fuel (ind+1)

/-- Matrix<T>::getElement (matrix.hpp lines 138-147).  The bounds test compares
only against the upper bounds size1() and size2(); rowind_ is read through
std::vector::at. -/
def getElement [Zero T] (M : Matrix T) (i j : Int) : Except MErr T :=
  if i ≥ M.size1 ∨ j ≥ M.size2 then
    .error (.indexError "Matrix::getElement: out of bounds")
  else
    match vecAt M.rowind_ i, vecAt M.rowind_ (i+1) with
    | .ok start, .ok stop => scanGet M j (stop - start).toNat start
    | .error e, _ => .error e
    | .ok _, .error e => .error e

/-- Outcome of the scan loop of Matrix<T>::getElementRef: either the element
exists at a slot (found), or the loop stopped at the position where the element
has to be inserted. -/
inductive ScanRes where
  | found : Nat → ScanRes
  | insertAt : Int → ScanRes
  deriving DecidableEq, Repr

/-- Loop of Matrix<T>::getElementRef (matrix.hpp lines 155-160): same scan as
getElement, but rowind_ is read through operator[] by the caller and the loop
communicates the final value of ind for the insertion. -/
def scanRef [Zero T] (M : Matrix T) (j : Int) : Nat → Int → Except MErr ScanRes
  | 0, ind => .ok (.insertAt ind)
  | fuel+1, ind =>
    match vecIdx M.col_ ind with
    | .error e => .error e
    | .ok c =>
      if c = j then
        match vecAt M.values ind with
        | .ok _ => .ok (.found ind.toNat)
        | .error e => .error e
      else if c > j then .ok (.insertAt ind)
      else scanRef M j fuel (ind+1)

/-- Loop for(int row = i+1; row < size1()+1; ++row) rowind_[row]++ of
Matrix<T>::getElementRef (matrix.hpp lines 166-167); fuel counts the remaining
iterations, row is the current loop variable. -/
def bumpRowind : List Int → Nat → Int → Except MErr (List Int)
  | v, 0, _ => .ok v
  | v, fuel+1, row =>
    if 0 ≤ row ∧ row.toNat < v.length then
      bumpRowind (v.set row.toNat (v.getD row.toNat 0 + 1)) fuel (row+1)
    else .error .ub

/-- Matrix<T>::getElementRef (matrix.hpp lines 150-170).  Returns the resulting
object state together with either the slot index whose reference the C++ code
returns, or the exceptional outcome.  When the element is absent, a zero value
and the column j are inserted at the final scan position and the row offsets of
all later rows are incremented. -/
def getElementRef [Zero T] (M : Matrix T) (i j : Int) : Matrix T × Except MErr Nat :=
  if i ≥ M.size1 ∨ j ≥ M.size2 then
    (M, .error (.indexError "Matrix::getElementRef: out of bounds"))
  else
    match vecIdx M.rowind_ i, vecIdx M.rowind_ (i+1) with
    | .ok start, .ok stop =>
      match scanRef M j (stop - start).toNat start with
      | .error e => (M, .error e)
      | .ok (.found k) => (M, .ok k)
      | .ok (.insertAt ind) =>
        if 0 ≤ ind ∧ ind.toNat ≤ M.values.length ∧ ind.toNat ≤ M.col_.length then
          let M2 : Matrix T :=
            { M with values := M.values.insertIdx ind.toNat 0,
                     col_ := M.col_.insertIdx ind.toNat j }
          match bumpRowind M2.rowind_ (M.size1 + 1 - (i+1)).toNat (i+1) with
          | .error e => (M2, .error e)
          | .ok rw2 =>
            let M3 : Matrix T := { M2 with rowind_ := rw2 }
            match vecAt M3.values ind with
            | .ok _ => (M3, .ok ind.toNat)
            | .error e => (M3, .error e)
        else (M, .error .ub)
    | .error e, _ => (M, .error e)
    | .ok _, .error e => (M, .error e)

/-- Assignment through the reference returned by getElementRef: overwrite the
value stored at slot k. -/
def Matrix.setVal (M : Matrix T) (k : Nat) (v : T) : Matrix T :=
  { M with values := M.values.set k v }

/-- Matrix<T>::makeEmpty (matrix.hpp lines 239-246). -/
def makeEmpty (n m : Int) : Matrix T :=
  { nrow := n, ncol := m, values := [], col_ := [],
    rowind_ := List.replicate (n+1).toNat 0 }

/-- Column pattern written by the nested fill loops of Matrix<T>::makeDense
(matrix.hpp lines 198-204): one block [0, 1, ..., m-1] per row. -/
def denseCol : Nat → Nat → List Int
  | 0, _ => []
  | n+1, m => (List.range m).map (fun (j : Nat) => (j : Int)) ++ denseCol n m

/-- Row offsets written by Matrix<T>::makeDense: rowind_[i] = i*m for i < n and
rowind_.back() = n*m. -/
def denseRowind (n m : Nat) : List Int :=
  (List.range n).map (fun (i : Nat) => ((i * m : Nat) : Int)) ++ [((n * m : Nat) : Int)]

/-- Matrix<T>::makeDense (matrix.hpp lines 189-206), written out for the
non-negative shapes on which the std::vector::resize calls of the source are
well defined. -/
def makeDense (n m : Int) (val : T) : Matrix T :=
  { nrow := n, ncol := m,
    values := List.replicate (n.toNat * m.toNat) val,
    col_ := denseCol n.toNat m.toNat,
    rowind_ := denseRowind n.toNat m.toNat }

/-- Constructor Matrix<T>::Matrix(const T&) (matrix.hpp lines 52-55):
makeEmpty(1,1) followed by getElementRef() = val, the assignment being the
setVal write at the returned slot. -/
def scalarCtor [Zero T] (val : T) : Matrix T :=
  let r := getElementRef (makeEmpty 1 1 : Matrix T) 0 0
  match r.2 with
  | .ok k => r.1.setVal k val
  | .error _ => r.1

/-- Constructor Matrix<T>::Matrix(const std::vector<A>&) (matrix.hpp lines
59-62): makeDense(x.size(), 1, 1) followed by copying x over the value
storage. -/
def fromVec [One T] (x : List T) : Matrix T :=
  { makeDense (x.length : Int) 1 (1 : T) with values := x }

/-- Constructor Matrix<T>::Matrix(const std::vector<A>&, int n, int m)
(matrix.hpp lines 66-70): throws the dimension mismatch CasadiException when
x.size() != n*m, otherwise makeDense(n, m, 1) followed by copying x over the
value storage. -/
def fromVecShaped [One T] (x : List T) (n m : Int) : Except MErr (Matrix T) :=
  if (x.length : Int) ≠ n * m then
    .error (.dimensionError
      "Matrix::Matrix(const std::vector<double>& x,  int n, int m): dimension mismatch")
  else .ok { makeDense n m (1 : T) with values := x }

/-- Matrix<T>::printScalar (matrix.hpp lines 249-252), rendering elements with
f; the throw carries the message of the source and is the ShapeError of the
spec taxonomy. -/
def printScalar [Zero T] (f : T → String) (M : Matrix T) : Except MErr String :=
  if M.numel ≠ 1 then .error (.shapeError "operator=: argument not scalar")
  else
    match getElement M 0 0 with
    | .ok v => .ok (f v)
    | .error e => .error e

/-- Matrix<T>::printVector (matrix.hpp lines 255-263). -/
def printVector [Zero T] (f : T → String) (M : Matrix T) : Except MErr String := do
  let v0 ← getElement M 0 0
  let rest ← (List.range (M.size1 - 1).toNat).mapM
    (fun (d : Nat) => getElement M (1 + (d : Int)) 0)
  pure ("[" ++ toString M.size1 ++ "](" ++ f v0
        ++ String.join (rest.map (fun v => "," ++ f v)) ++ ")")

/-- Body of one row of Matrix<T>::printMatrix: the first element of row i then
a comma before every further element. -/
def rowStr [Zero T] (f : T → String) (M : Matrix T) (i : Int) : Except MErr String := do
  let v0 ← getElement M i 0
  let rest ← (List.range (M.size2 - 1).toNat).mapM
    (fun (d : Nat) => getElement M i (1 + (d : Int)))
  pure (f v0 ++ String.join (rest.map (fun v => "," ++ f v)))

/-- Matrix<T>::printMatrix (matrix.hpp lines 266-286). -/
def printMatrix [Zero T] (f : T → String) (M : Matrix T) : Except MErr String := do
  let r0 ← rowStr f M 0
  let rest ← (List.range (M.size1 - 1).toNat).mapM
    (fun (d : Nat) => rowStr f M (1 + (d : Int)))
  pure ("[" ++ toString M.size1 ++ "," ++ toString M.size2 ++ "]" ++ "((" ++ r0 ++ ")"
        ++ String.join (rest.map (fun s => ",(" ++ s ++ ")")) ++ ")")

/-- Matrix<T>::print (matrix.hpp lines 289-298): dispatch on the shape. -/
def printMat [Zero T] (f : T → String) (M : Matrix T) : Except MErr String :=
  if M.empty then .ok "<empty expression>"
  else if M.numel = 1 then printScalar f M
  else if M.size2 = 1 then printVector f M
  else printMatrix f M

/-- Value of the matrix at a coordinate as the spec describes it: the stored
value, or the zero of T when absent; total on the in-bounds coordinates of
invariant-satisfying matrices. -/
def entry [Zero T] (M : Matrix T) (i j : Int) : T :=
  match getElement M i j with
  | .ok v => v
  | .error _ => 0

/-- Comma-joined rendering of a list of fragments, as the spec words it. -/
def commaJoin : List String → String
  | [] => ""
  | s :: rest => s ++ String.join (rest.map (fun t => "," ++ t))

/-- CRS structural invariant of spec section 3, in a decidably checkable form:
non-negative shape, rowind_ of length nrow+1 starting at 0 and ending at the
common length of values and col_, non-decreasing rowind_, strictly increasing
column slice within every row, and stored columns inside [0, ncol). -/
def Inv (M : Matrix T) : Prop :=
  0 ≤ M.nrow ∧ 0 ≤ M.ncol ∧
  M.rowind_.length = M.nrow.toNat + 1 ∧
  gI M.rowind_ 0 = 0 ∧
  gI M.rowind_ M.nrow.toNat = (M.values.length : Int) ∧
  M.col_.length = M.values.length ∧
  (∀ b, b < M.rowind_.length → ∀ a, a ≤ b → gI M.rowind_ a ≤ gI M.rowind_ b) ∧
  (∀ r, r < M.nrow.toNat → ∀ b, b < M.col_.length → ∀ a, a < b →
      gI M.rowind_ r ≤ (a : Int) → (b : Int) < gI M.rowind_ (r+1) →
      gI M.col_ a < gI M.col_ b) ∧
  (∀ k, k < M.col_.length → 0 ≤ gI M.col_ k ∧ gI M.col_ k < M.ncol)

set_option synthInstance.maxSize 2000 in
instance instDecidableInv (M : Matrix Int) : Decidable (Inv M) := by
  unfold Inv
  infer_instance

/-- Invariant exactly as claim C1 lists it: len(rowind) == nrow+1,
rowind[0] == 0, rowind[nrow] == len(values) == len(col), rowind non-decreasing,
and within every row i the column slice col[rowind[i] : rowind[i+1]) is
strictly increasing. -/
def InvClaimed (M : Matrix T) : Prop :=
  (M.rowind_.length : Int) = M.nrow + 1 ∧
  gI M.rowind_ 0 = 0 ∧
  gI M.rowind_ M.nrow.toNat = (M.values.length : Int) ∧
  M.values.length = M.col_.length ∧
  (∀ a b : Nat, a ≤ b → b < M.rowind_.length → gI M.rowind_ a ≤ gI M.rowind_ b) ∧
  (∀ r : Nat, r < M.nrow.toNat → ∀ a b : Nat,
      gI M.rowind_ r ≤ (a : Int) → a < b → (b : Int) < gI M.rowind_ (r+1) →
      gI M.col_ a < gI M.col_ b)

/-- Matrices producible by the public operations of the spec: every constructor,
re-initialization (makeEmpty / makeDense on an existing object, whose result does
not depend on the previous state), in-bounds write access, and assignment
through a reference returned by a successful write access. -/
inductive Reachable [Zero T] [One T] : Matrix T → Prop where
  | mkEmpty (n m : Int) : 0 ≤ n → 0 ≤ m → Reachable (makeEmpty n m)
  | mkDense (n m : Int) (val : T) : 0 ≤ n → 0 ≤ m → Reachable (makeDense n m val)
  | mkScalar (val : T) : Reachable (scalarCtor val)
  | mkVec (x : List T) : Reachable (fromVec x)
  | mkShaped (x : List T) (n m : Int) (M : Matrix T) :
      0 ≤ n → 0 ≤ m → fromVecShaped x n m = .ok M → Reachable M
  | insertStep (M N : Matrix T) (i j : Int) (k : Nat) :
      Reachable M → 0 ≤ i → i < M.nrow → 0 ≤ j → j < M.ncol →
      getElementRef M i j = (N, .ok k) → Reachable N
  | assignStep (M N : Matrix T) (i j : Int) (k : Nat) (v : T) :
      Reachable M → 0 ≤ i → i < M.nrow → 0 ≤ j → j < M.ncol →
      getElementRef M i j = (N, .ok k) → Reachable (N.setVal k v)

/-- Reading a set list at an in-range write position. -/
theorem getD_set_of_lt {α : Type} (l : List α) (k : Nat) (v d : α)
    (hk : k < l.length) (a : Nat) :
    (l.set k v).getD a d = if a = k then v else l.getD a d := by
  rcases Nat.lt_or_ge a l.length with ha | ha
  · have ha2 : a < (l.set k v).length := by simpa using ha
    rw [List.getD_eq_getElem _ d ha2, List.getElem_set, List.getD_eq_getElem _ d ha]
    by_cases h : a = k
    · simp [h]
    · rw [if_neg (fun hh : k = a => h hh.symm), if_neg h]
  · have h : ¬ a = k := by omega
    rw [List.getD_eq_getElem?_getD, List.getElem?_eq_none (by simpa using ha),
        List.getD_eq_getElem?_getD, List.getElem?_eq_none ha, if_neg h]

/-- Reading an insertIdx result: positions before the insertion point are
unchanged, the insertion point holds the new element, later positions shift. -/
theorem getD_insertIdx {α : Type} (l : List α) (p : Nat) (x d : α)
    (hp : p ≤ l.length) (a : Nat) :
    (l.insertIdx p x).getD a d =
      if a < p then l.getD a d else if a = p then x else l.getD (a-1) d := by
  have hlen : (l.insertIdx p x).length = l.length + 1 := List.length_insertIdx p l hp
  rcases Nat.lt_or_ge a p with hap | hap
  · have ha : a < l.length := Nat.lt_of_lt_of_le hap hp
    rw [List.getD_eq_getElem _ d (by omega), List.getD_eq_getElem _ d ha,
        List.getElem_insertIdx_of_lt l x p a hap ha, if_pos hap]
  · rw [if_neg (by omega)]
    by_cases hEq : a = p
    · subst hEq
      rw [List.getD_eq_getElem _ d (by omega), if_pos rfl]
      exact List.getElem_insertIdx_self l x a hp
    · rw [if_neg hEq]
      rcases Nat.lt_or_ge (a-1) l.length with ha | ha
      · obtain ⟨c, rfl⟩ : ∃ c, a = p + c + 1 := ⟨a - 1 - p, by omega⟩
        have h2 : p + c < l.length := by omega
        have hsub : p + c + 1 - 1 = p + c := by omega
        rw [hsub, List.getD_eq_getElem _ d (by omega), List.getD_eq_getElem _ d h2]
        exact List.getElem_insertIdx_add_succ l x p c h2 (by omega)
      · rw [List.getD_eq_getElem?_getD, List.getElem?_eq_none (by omega),
            List.getD_eq_getElem?_getD, List.getElem?_eq_none (by omega)]

/-- Reading a replicate list. -/
theorem getD_replicate {α : Type} (n : Nat) (v d : α) (a : Nat) :
    (List.replicate n v).getD a d = if a < n then v else d := by
  rcases Nat.lt_or_ge a n with ha | ha
  · rw [List.getD_eq_getElem _ d (by simpa using ha), List.getElem_replicate, if_pos ha]
  · rw [List.getD_eq_getElem?_getD, List.getElem?_eq_none (by simpa using ha), if_neg (by omega)]
    rfl

/-- Successful std::vector::at read. -/
theorem vecAt_ok {α : Type} (l : List α) (k : Int) (d : α)
    (h0 : 0 ≤ k) (h1 : k.toNat < l.length) :
    vecAt l k = .ok (l.getD k.toNat d) := by
  unfold vecAt
  rw [if_pos h0, List.getElem?_eq_getElem h1, List.getD_eq_getElem _ d h1]

/-- Failing std::vector::at read. -/
theorem vecAt_err {α : Type} (l : List α) (k : Int)
    (h : k < 0 ∨ (l.length : Int) ≤ k) :
    vecAt l k = .error .outOfRange := by
  unfold vecAt
  rcases h with h | h
  · rw [if_neg (by omega)]
  · rw [if_pos (by omega), List.getElem?_eq_none (by omega)]

/-- In-range std::vector::operator[] read. -/
theorem vecIdx_ok {α : Type} (l : List α) (k : Int) (d : α)
    (h0 : 0 ≤ k) (h1 : k.toNat < l.length) :
    vecIdx l k = .ok (l.getD k.toNat d) := by
  unfold vecIdx
  rw [if_pos h0, List.getElem?_eq_getElem h1, List.getD_eq_getElem _ d h1]

/-- Out-of-range std::vector::operator[] read. -/
theorem vecIdx_err {α : Type} (l : List α) (k : Int)
    (h : k < 0 ∨ (l.length : Int) ≤ k) :
    vecIdx l k = .error .ub := by
  unfold vecIdx
  rcases h with h | h
  · rw [if_neg (by omega)]
  · rw [if_pos (by omega), List.getElem?_eq_none (by omega)]

/-- Reading a set integer vector. -/
theorem gI_set (v : List Int) (k : Nat) (x : Int) (hk : k < v.length) (a : Nat) :
    gI (v.set k x) a = if a = k then x else gI v a :=
  getD_set_of_lt v k x 0 hk a

/-- Reading an integer vector after an insertion. -/
theorem gI_insertIdx (v : List Int) (p : Nat) (x : Int) (hp : p ≤ v.length) (a : Nat) :
    gI (v.insertIdx p x) a = if a < p then gI v a else if a = p then x else gI v (a-1) :=
  getD_insertIdx v p x 0 hp a

/-- Scan of getElement when a stored slot in the scanned range carries column j:
the loop walks past the smaller columns and returns the stored value. -/
theorem scanGet_found [Zero T] (M : Matrix T) (j : Int) (k : Nat)
    (hkv : k < M.values.length) (hkc : k < M.col_.length) (hj : gI M.col_ k = j) :
    ∀ fuel : Nat, ∀ ind : Int, 0 ≤ ind → ind ≤ (k : Int) → (k : Int) < ind + fuel →
    (∀ a : Nat, ind ≤ (a : Int) → a < k → gI M.col_ a < j) →
    scanGet M j fuel ind = .ok (M.values.getD k 0) := by
  intro fuel
  induction fuel with
  | zero => intro ind _ h1 h2 _; omega
  | succ fuel ih =>
    intro ind h0 h1 h2 hpre
    have hv : vecIdx M.col_ ind = .ok (gI M.col_ ind.toNat) :=
      vecIdx_ok _ _ 0 h0 (by omega)
    by_cases hik : ind = (k : Int)
    · have htn : ind.toNat = k := by omega
      rw [htn] at hv
      simp only [scanGet, hv]
      rw [hj, if_pos rfl, ← htn]
      exact vecAt_ok _ _ 0 h0 (by omega)
    · have hlt : gI M.col_ ind.toNat < j := hpre ind.toNat (by omega) (by omega)
      simp only [scanGet, hv]
      rw [if_neg (by omega), if_neg (by omega)]
      exact ih (ind+1) (by omega) (by omega) (by omega)
        (fun a ha1 ha2 => hpre a (by omega) ha2)

/-- Scan of getElement when no slot in the scanned range carries column j: the
loop breaks or runs off the row and the function returns zero. -/
theorem scanGet_absent [Zero T] (M : Matrix T) (j : Int) :
    ∀ fuel : Nat, ∀ ind : Int, 0 ≤ ind → ind + fuel ≤ (M.col_.length : Int) →
    (∀ a : Nat, ind ≤ (a : Int) → (a : Int) < ind + fuel → gI M.col_ a ≠ j) →
    scanGet M j fuel ind = .ok 0 := by
  intro fuel
  induction fuel with
  | zero => intro ind _ _ _; rfl
  | succ fuel ih =>
    intro ind h0 hlen hne
    have hv : vecIdx M.col_ ind = .ok (gI M.col_ ind.toNat) :=
      vecIdx_ok _ _ 0 h0 (by omega)
    have hnej : gI M.col_ ind.toNat ≠ j := hne ind.toNat (by omega) (by omega)
    simp only [scanGet, hv]
    rw [if_neg hnej]
    by_cases hgt : gI M.col_ ind.toNat > j
    · rw [if_pos hgt]
    · rw [if_neg hgt]
      exact ih (ind+1) (by omega) (by omega)
        (fun a ha1 ha2 => hne a (by omega) (by omega))

/-- Scan of getElementRef when a stored slot in the scanned range carries column
j: the loop returns the slot index. -/
theorem scanRef_found [Zero T] (M : Matrix T) (j : Int) (k : Nat)
    (hkv : k < M.values.length) (hkc : k < M.col_.length) (hj : gI M.col_ k = j) :
    ∀ fuel : Nat, ∀ ind : Int, 0 ≤ ind → ind ≤ (k : Int) → (k : Int) < ind + fuel →
    (∀ a : Nat, ind ≤ (a : Int) → a < k → gI M.col_ a < j) →
    scanRef M j fuel ind = .ok (.found k) := by
  intro fuel
  induction fuel with
  | zero => intro ind _ h1 h2 _; omega
  | succ fuel ih =>
    intro ind h0 h1 h2 hpre
    have hv : vecIdx M.col_ ind = .ok (gI M.col_ ind.toNat) :=
      vecIdx_ok _ _ 0 h0 (by omega)
    by_cases hik : ind = (k : Int)
    · have htn : ind.toNat = k := by omega
      rw [htn] at hv
      have hvals : vecAt M.values ind = .ok (M.values.getD k 0) := by
        rw [← htn]
        exact vecAt_ok _ _ 0 h0 (by omega)
      simp only [scanRef, hv]
      rw [hj, if_pos rfl]
      simp only [hvals, htn]
    · have hlt : gI M.col_ ind.toNat < j := hpre ind.toNat (by omega) (by omega)
      simp only [scanRef, hv]
      rw [if_neg (by omega), if_neg (by omega)]
      exact ih (ind+1) (by omega) (by omega) (by omega)
        (fun a ha1 ha2 => hpre a (by omega) ha2)

/-- Scan of getElementRef when column j is absent from the scanned range: the
loop stops at the split position p (the first position whose column exceeds j,
or the end of the range) and reports it as the insertion point. -/
theorem scanRef_split [Zero T] (M : Matrix T) (j : Int) :
    ∀ fuel : Nat, ∀ ind p : Int, 0 ≤ ind → ind ≤ p → p ≤ ind + fuel →
    (p < ind + fuel → p.toNat < M.col_.length ∧ j < gI M.col_ p.toNat) →
    (∀ a : Nat, ind ≤ (a : Int) → (a : Int) < p → a < M.col_.length ∧ gI M.col_ a < j) →
    scanRef M j fuel ind = .ok (.insertAt p) := by
  intro fuel
  induction fuel with
  | zero =>
    intro ind p _ h1 h2 _ _
    have : ind = p := by omega
    simp only [scanRef, this]
  | succ fuel ih =>
    intro ind p h0 h1 h2 hat hpre
    by_cases hip : ind = p
    · obtain ⟨hplen, hpgt⟩ := hat (by omega)
      have hv : vecIdx M.col_ ind = .ok (gI M.col_ p.toNat) := by
        have : ind.toNat = p.toNat := by omega
        rw [← this] at hplen ⊢
        exact vecIdx_ok _ _ 0 h0 hplen
      simp only [scanRef, hv]
      rw [if_neg (by omega), if_pos (by omega), hip]
    · obtain ⟨halen, hlt⟩ := hpre ind.toNat (by omega) (by omega)
      have hv : vecIdx M.col_ ind = .ok (gI M.col_ ind.toNat) :=
        vecIdx_ok _ _ 0 h0 halen
      simp only [scanRef, hv]
      rw [if_neg (by omega), if_neg (by omega)]
      exact ih (ind+1) p (by omega) (by omega) (by omega)
        (fun h => hat (by omega)) (fun a ha1 ha2 => hpre a (by omega) ha2)

/-- Characterization of the row-offset increment loop of getElementRef when all
touched positions are in range: it succeeds and adds one to exactly the
positions in [row, row+fuel). -/
theorem bumpRowind_ok :
    ∀ fuel : Nat, ∀ v : List Int, ∀ row : Int,
    0 ≤ row → row + fuel ≤ (v.length : Int) →
    ∃ w, bumpRowind v fuel row = .ok w ∧ w.length = v.length ∧
      (∀ a : Nat, gI w a =
        if row ≤ (a : Int) ∧ (a : Int) < row + fuel then gI v a + 1 else gI v a) := by
  intro fuel
  induction fuel with
  | zero =>
    intro v row _ _
    exact ⟨v, rfl, rfl, fun a => by rw [if_neg (by omega)]⟩
  | succ fuel ih =>
    intro v row h0 hlen
    have hrl : row.toNat < v.length := by omega
    have hcond : (0 : Int) ≤ row ∧ row.toNat < v.length := ⟨h0, hrl⟩
    obtain ⟨w, heq, hwlen, hw⟩ :=
      ih (v.set row.toNat (v.getD row.toNat 0 + 1)) (row + 1) (by omega)
        (by rw [List.length_set]; omega)
    refine ⟨w, ?_, by simpa using hwlen, ?_⟩
    · simp only [bumpRowind, if_pos hcond]
      exact heq
    · intro a
      rw [hw a]
      have hset := gI_set v row.toNat (v.getD row.toNat 0 + 1) hrl a
      by_cases h1 : a = row.toNat
      · subst h1
        rw [if_neg (by omega), hset, if_pos rfl, if_pos (by omega)]
        rfl
      · by_cases h2 : row + 1 ≤ (a : Int) ∧ (a : Int) < row + 1 + fuel
        · rw [if_pos h2, if_pos (by omega)]
          rw [show gI (v.set row.toNat (v.getD row.toNat 0 + 1)) a = gI v a by
            rw [hset, if_neg h1]]
        · rw [if_neg h2, if_neg (by omega)]
          rw [hset, if_neg h1]

/-- getElement at a stored coordinate: under the invariant, a slot k inside row
i's range whose column is j makes getElement return the value stored at k. -/
theorem getElement_stored [Zero T] (M : Matrix T) (hI : Inv M) (i j : Int) (k : Nat)
    (hi0 : 0 ≤ i) (hi : i < M.nrow)
    (hk1 : gI M.rowind_ i.toNat ≤ (k : Int))
    (hk2 : (k : Int) < gI M.rowind_ (i.toNat + 1))
    (hkc : gI M.col_ k = j) :
    getElement M i j = .ok (M.values.getD k 0) := by
  obtain ⟨hn0, hc0, hrlen, hr0, hrlast, hclen, hmono, hsort, hcb⟩ := hI
  have hitn : i.toNat < M.nrow.toNat := by omega
  have hstople : gI M.rowind_ (i.toNat+1) ≤ (M.values.length : Int) := by
    have := hmono M.nrow.toNat (by omega) (i.toNat+1) (by omega)
    omega
  have hkcol : k < M.col_.length := by omega
  have hjlt : j < M.ncol := by
    have := hcb k hkcol
    omega
  have hstart0 : 0 ≤ gI M.rowind_ i.toNat := by
    have := hmono i.toNat (by omega) 0 (Nat.zero_le _)
    omega
  have hss : gI M.rowind_ i.toNat ≤ gI M.rowind_ (i.toNat+1) :=
    hmono (i.toNat+1) (by omega) i.toNat (by omega)
  have hv1 : vecAt M.rowind_ i = .ok (gI M.rowind_ i.toNat) :=
    vecAt_ok _ _ 0 hi0 (by omega)
  have hv2 : vecAt M.rowind_ (i+1) = .ok (gI M.rowind_ (i.toNat+1)) := by
    have ht : (i+1).toNat = i.toNat + 1 := by omega
    rw [← ht]
    exact vecAt_ok _ _ 0 (by omega) (by omega)
  unfold getElement
  rw [if_neg (by simp only [Matrix.size1, Matrix.size2]; omega)]
  simp only [hv1, hv2]
  exact scanGet_found M j k (by omega) hkcol hkc _ _ hstart0 hk1 (by omega)
    (fun a ha1 ha2 => by
      have := hsort i.toNat hitn k hkcol a ha2 ha1 hk2
      omega)

/-- getElement at an in-bounds coordinate absent from row i: under the
invariant, the scan returns the zero of T. -/
theorem getElement_absent [Zero T] (M : Matrix T) (hI : Inv M) (i j : Int)
    (hi0 : 0 ≤ i) (hi : i < M.nrow) (hj : j < M.ncol)
    (habs : ∀ k : Nat, gI M.rowind_ i.toNat ≤ (k : Int) →
        (k : Int) < gI M.rowind_ (i.toNat + 1) → gI M.col_ k ≠ j) :
    getElement M i j = .ok 0 := by
  obtain ⟨hn0, hc0, hrlen, hr0, hrlast, hclen, hmono, hsort, hcb⟩ := hI
  have hitn : i.toNat < M.nrow.toNat := by omega
  have hstople : gI M.rowind_ (i.toNat+1) ≤ (M.values.length : Int) := by
    have := hmono M.nrow.toNat (by omega) (i.toNat+1) (by omega)
    omega
  have hstart0 : 0 ≤ gI M.rowind_ i.toNat := by
    have := hmono i.toNat (by omega) 0 (Nat.zero_le _)
    omega
  have hss : gI M.rowind_ i.toNat ≤ gI M.rowind_ (i.toNat+1) :=
    hmono (i.toNat+1) (by omega) i.toNat (by omega)
  have hv1 : vecAt M.rowind_ i = .ok (gI M.rowind_ i.toNat) :=
    vecAt_ok _ _ 0 hi0 (by omega)
  have hv2 : vecAt M.rowind_ (i+1) = .ok (gI M.rowind_ (i.toNat+1)) := by
    have ht : (i+1).toNat = i.toNat + 1 := by omega
    rw [← ht]
    exact vecAt_ok _ _ 0 (by omega) (by omega)
  unfold getElement
  rw [if_neg (by simp only [Matrix.size1, Matrix.size2]; omega)]
  simp only [hv1, hv2]
  exact scanGet_absent M j _ _ hstart0 (by omega)
    (fun a ha1 ha2 => habs a ha1 (by omega))

/-- getElementRef at a stored coordinate: under the invariant, the call changes
nothing and returns the index of the stored slot. -/
theorem getElementRef_found [Zero T] (M : Matrix T) (hI : Inv M) (i j : Int) (k : Nat)
    (hi0 : 0 ≤ i) (hi : i < M.nrow)
    (hk1 : gI M.rowind_ i.toNat ≤ (k : Int))
    (hk2 : (k : Int) < gI M.rowind_ (i.toNat + 1))
    (hkc : gI M.col_ k = j) :
    getElementRef M i j = (M, .ok k) := by
  obtain ⟨hn0, hc0, hrlen, hr0, hrlast, hclen, hmono, hsort, hcb⟩ := hI
  have hitn : i.toNat < M.nrow.toNat := by omega
  have hstople : gI M.rowind_ (i.toNat+1) ≤ (M.values.length : Int) := by
    have := hmono M.nrow.toNat (by omega) (i.toNat+1) (by omega)
    omega
  have hkcol : k < M.col_.length := by omega
  have hjlt : j < M.ncol := by
    have := hcb k hkcol
    omega
  have hstart0 : 0 ≤ gI M.rowind_ i.toNat := by
    have := hmono i.toNat (by omega) 0 (Nat.zero_le _)
    omega
  have hss : gI M.rowind_ i.toNat ≤ gI M.rowind_ (i.toNat+1) :=
    hmono (i.toNat+1) (by omega) i.toNat (by omega)
  have hv1 : vecIdx M.rowind_ i = .ok (gI M.rowind_ i.toNat) :=
    vecIdx_ok _ _ 0 hi0 (by omega)
  have hv2 : vecIdx M.rowind_ (i+1) = .ok (gI M.rowind_ (i.toNat+1)) := by
    have ht : (i+1).toNat = i.toNat + 1 := by omega
    rw [← ht]
    exact vecIdx_ok _ _ 0 (by omega) (by omega)
  have hscan : scanRef M j (gI M.rowind_ (i.toNat+1) - gI M.rowind_ i.toNat).toNat
      (gI M.rowind_ i.toNat) = .ok (.found k) :=
    scanRef_found M j k (by omega) hkcol hkc _ _ hstart0 hk1 (by omega)
      (fun a ha1 ha2 => by
        have := hsort i.toNat hitn k hkcol a ha2 ha1 hk2
        omega)
  unfold getElementRef
  rw [if_neg (by simp only [Matrix.size1, Matrix.size2]; omega)]
  simp only [hv1, hv2, hscan]

/-- getElementRef at an in-bounds coordinate absent from row i: under the
invariant the call inserts a zero value and the column j at the split position
of the row's sorted column slice and adds one to the row offsets of all rows
after i, returning the inserted slot. -/
theorem getElementRef_insert [Zero T] (M : Matrix T) (hI : Inv M) (i j : Int)
    (hi0 : 0 ≤ i) (hi : i < M.nrow) (hj : j < M.ncol)
    (habs : ∀ k : Nat, gI M.rowind_ i.toNat ≤ (k : Int) →
        (k : Int) < gI M.rowind_ (i.toNat + 1) → gI M.col_ k ≠ j) :
    ∃ p : Nat, ∃ rw2 : List Int,
      getElementRef M i j =
        ({ M with values := M.values.insertIdx p 0,
                  col_ := M.col_.insertIdx p j,
                  rowind_ := rw2 }, .ok p) ∧
      gI M.rowind_ i.toNat ≤ (p : Int) ∧
      (p : Int) ≤ gI M.rowind_ (i.toNat + 1) ∧
      p ≤ M.values.length ∧
      (∀ a : Nat, gI M.rowind_ i.toNat ≤ (a : Int) → a < p → gI M.col_ a < j) ∧
      ((p : Int) < gI M.rowind_ (i.toNat + 1) → j < gI M.col_ p) ∧
      rw2.length = M.rowind_.length ∧
      (∀ a : Nat, gI rw2 a =
        if i + 1 ≤ (a : Int) ∧ (a : Int) < M.nrow + 1
        then gI M.rowind_ a + 1 else gI M.rowind_ a) := by
  obtain ⟨hn0, hc0, hrlen, hr0, hrlast, hclen, hmono, hsort, hcb⟩ := hI
  have hsz : M.size1 = M.nrow := rfl
  have hitn : i.toNat < M.nrow.toNat := by omega
  have hstople : gI M.rowind_ (i.toNat+1) ≤ (M.values.length : Int) := by
    have := hmono M.nrow.toNat (by omega) (i.toNat+1) (by omega)
    omega
  have hstart0 : 0 ≤ gI M.rowind_ i.toNat := by
    have := hmono i.toNat (by omega) 0 (Nat.zero_le _)
    omega
  have hss : gI M.rowind_ i.toNat ≤ gI M.rowind_ (i.toNat+1) :=
    hmono (i.toNat+1) (by omega) i.toNat (by omega)
  set s0 : Int := gI M.rowind_ i.toNat with hs0
  set s1 : Int := gI M.rowind_ (i.toNat+1) with hs1
  have hex : ∃ d : Nat, s1 ≤ s0 + d ∨ j < gI M.col_ (s0.toNat + d) :=
    ⟨(s1 - s0).toNat, Or.inl (by omega)⟩
  obtain ⟨d0, hQ, hmin⟩ :
      ∃ d0 : Nat, (s1 ≤ s0 + d0 ∨ j < gI M.col_ (s0.toNat + d0)) ∧
        ∀ d, d < d0 → ¬ (s1 ≤ s0 + d ∨ j < gI M.col_ (s0.toNat + d)) :=
    ⟨Nat.find hex, Nat.find_spec hex, fun d hd => Nat.find_min hex hd⟩
  set p : Nat := s0.toNat + d0 with hp
  have hps1 : (p : Int) ≤ s1 := by
    by_contra hcon
    exact hmin (s1 - s0).toNat (by omega) (Or.inl (by omega))
  have hpre : ∀ a : Nat, s0 ≤ (a : Int) → a < p → gI M.col_ a < j := by
    intro a ha1 ha2
    have hnq := hmin (a - s0.toNat) (by omega)
    push_neg at hnq
    obtain ⟨hq1, hq2⟩ := hnq
    have haa : s0.toNat + (a - s0.toNat) = a := by omega
    rw [haa] at hq2
    have hne := habs a ha1 (by omega)
    omega
  have hpgt : (p : Int) < s1 → j < gI M.col_ p := by
    intro hlt
    rcases hQ with h | h
    · omega
    · exact h
  have hscan : scanRef M j (s1 - s0).toNat s0 = .ok (.insertAt (p : Int)) := by
    apply scanRef_split M j _ s0 (p : Int) hstart0 (by omega) (by omega)
    · intro hlt
      refine ⟨by omega, ?_⟩
      have := hpgt (by omega)
      simpa using this
    · intro a ha1 ha2
      exact ⟨by omega, hpre a ha1 (by omega)⟩
  have hv1 : vecIdx M.rowind_ i = .ok s0 := by
    rw [hs0]
    exact vecIdx_ok _ _ 0 hi0 (by omega)
  have hv2 : vecIdx M.rowind_ (i+1) = .ok s1 := by
    rw [hs1]
    have ht : (i+1).toNat = i.toNat + 1 := by omega
    rw [← ht]
    exact vecIdx_ok _ _ 0 (by omega) (by omega)
  obtain ⟨w, hweq, hwlen, hwc⟩ :=
    bumpRowind_ok (M.size1 + 1 - (i+1)).toNat M.rowind_ (i+1) (by omega) (by omega)
  have hvat : vecAt (M.values.insertIdx p 0) (p : Int) =
      .ok ((M.values.insertIdx p 0).getD p 0) := by
    have hlen2 : (M.values.insertIdx p 0).length = M.values.length + 1 :=
      List.length_insertIdx p M.values (by omega)
    have := vecAt_ok (M.values.insertIdx p 0) (p : Int) 0 (by omega) (by omega)
    simpa using this
  refine ⟨p, w, ?_, by omega, hps1, by omega, hpre, hpgt, hwlen, ?_⟩
  · unfold getElementRef
    rw [if_neg (by simp only [Matrix.size1, Matrix.size2]; omega)]
    simp only [hv1, hv2, hscan]
    rw [if_pos (show (0:Int) ≤ (p:Int) ∧ ((p:Int)).toNat ≤ M.values.length ∧
        ((p:Int)).toNat ≤ M.col_.length from ⟨by omega, by omega, by omega⟩)]
    simp only [Int.toNat_natCast, hweq, hvat]
  · intro a
    rw [hwc a]
    by_cases h : i + 1 ≤ (a : Int) ∧ (a : Int) < M.nrow + 1
    · rw [if_pos ⟨h.1, by omega⟩, if_pos h]
    · rw [if_neg (by omega), if_neg h]

/-- Insertion at the split position preserves the CRS invariant when the
inserted column j lies in [0, ncol). -/
theorem inv_insertResult [Zero T] (M : Matrix T) (hI : Inv M) (i j : Int)
    (hi0 : 0 ≤ i) (hi : i < M.nrow) (hj0 : 0 ≤ j) (hj : j < M.ncol)
    (p : Nat) (rw2 : List Int)
    (hp1 : gI M.rowind_ i.toNat ≤ (p : Int))
    (hp2 : (p : Int) ≤ gI M.rowind_ (i.toNat + 1))
    (hple : p ≤ M.values.length)
    (hpre : ∀ a : Nat, gI M.rowind_ i.toNat ≤ (a : Int) → a < p → gI M.col_ a < j)
    (hpgt : (p : Int) < gI M.rowind_ (i.toNat + 1) → j < gI M.col_ p)
    (hwlen : rw2.length = M.rowind_.length)
    (hwc : ∀ a : Nat, gI rw2 a =
        if i + 1 ≤ (a : Int) ∧ (a : Int) < M.nrow + 1
        then gI M.rowind_ a + 1 else gI M.rowind_ a) :
    Inv { M with values := M.values.insertIdx p 0,
                 col_ := M.col_.insertIdx p j,
                 rowind_ := rw2 } := by
  obtain ⟨hn0, hc0, hrlen, hr0, hrlast, hclen, hmono, hsort, hcb⟩ := hI
  have hitn : i.toNat < M.nrow.toNat := by omega
  have hcpl : p ≤ M.col_.length := by omega
  have hvlen : (M.values.insertIdx p 0).length = M.values.length + 1 :=
    List.length_insertIdx p M.values hple
  have hclen2 : (M.col_.insertIdx p j).length = M.col_.length + 1 :=
    List.length_insertIdx p M.col_ hcpl
  have hub : ∀ t : Nat, t < M.rowind_.length → gI M.rowind_ t ≤ (M.values.length : Int) := by
    intro t ht
    have := hmono M.nrow.toNat (by omega) t (by omega)
    omega
  have hlb : ∀ t : Nat, t < M.rowind_.length → 0 ≤ gI M.rowind_ t := by
    intro t ht
    have := hmono t ht 0 (Nat.zero_le _)
    omega
  have hgc := fun a => gI_insertIdx M.col_ p j hcpl a
  refine ⟨hn0, hc0, ?_, ?_, ?_, ?_, ?_, ?_, ?_⟩
  · show rw2.length = M.nrow.toNat + 1
    omega
  · show gI rw2 0 = 0
    rw [hwc 0, if_neg (by omega)]
    exact hr0
  · show gI rw2 M.nrow.toNat = ((M.values.insertIdx p 0).length : Int)
    rw [hwc M.nrow.toNat, if_pos (by omega), hvlen]
    push_cast
    omega
  · show (M.col_.insertIdx p j).length = (M.values.insertIdx p 0).length
    omega
  · show ∀ b, b < rw2.length → ∀ a, a ≤ b → gI rw2 a ≤ gI rw2 b
    intro b hb a hab
    have hbl : b < M.nrow.toNat + 1 := by omega
    have hm := hmono b (by omega) a hab
    rw [hwc a, hwc b]
    split_ifs <;> omega
  · show ∀ r, r < M.nrow.toNat → ∀ b, b < (M.col_.insertIdx p j).length → ∀ a, a < b →
        gI rw2 r ≤ (a : Int) → (b : Int) < gI rw2 (r+1) →
        gI (M.col_.insertIdx p j) a < gI (M.col_.insertIdx p j) b
    intro r hr b hb a hab hra hrb
    have hbl : b < M.col_.length + 1 := by omega
    rw [hwc r] at hra
    rw [hwc (r+1)] at hrb
    rw [hgc a, hgc b]
    have key : ∀ x y : Nat, gI M.rowind_ i.toNat ≤ (x : Int) → x < y →
        (y : Int) < gI M.rowind_ (i.toNat+1) → gI M.col_ x < gI M.col_ y := by
      intro x y h1 h2 h3
      have hyl : y < M.col_.length := by
        have := hub (i.toNat+1) (by omega)
        omega
      exact hsort i.toNat (by omega) y hyl x h2 h1 h3
    have key2 : ∀ y : Nat, p ≤ y → (y : Int) < gI M.rowind_ (i.toNat+1) →
        j < gI M.col_ y := by
      intro y hy1 hy2
      rcases Nat.eq_or_lt_of_le hy1 with h | h
      · subst h
        exact hpgt hy2
      · have h1 := hpgt (by omega)
        have h2 := key p y hp1 h hy2
        omega
    rcases Nat.lt_trichotomy r i.toNat with hri | hri | hri
    · rw [if_neg (by omega)] at hra
      rw [if_neg (by omega)] at hrb
      have hblt : (b : Int) < gI M.rowind_ i.toNat := by
        have := hmono i.toNat (by omega) (r+1) (by omega)
        omega
      rw [if_pos (by omega), if_pos (by omega)]
      exact hsort r (by omega) b (by omega) a hab hra hrb
    · subst hri
      rw [if_neg (by omega)] at hra
      rw [if_pos (by omega)] at hrb
      rcases Nat.lt_trichotomy b p with hbp | hbp | hbp
      · rw [if_pos (by omega), if_pos (by omega)]
        exact key a b hra hab (by omega)
      · subst hbp
        rw [if_pos (by omega), if_neg (by omega), if_pos rfl]
        exact hpre a hra hab
      · have hjb : j < gI M.col_ (b-1) := by
          have := key2 (b-1) (by omega) (by omega)
          exact this
        rw [show (if b < p then gI M.col_ b else if b = p then j else gI M.col_ (b-1)) =
            gI M.col_ (b-1) by rw [if_neg (by omega), if_neg (by omega)]]
        rcases Nat.lt_trichotomy a p with hap | hap | hap
        · rw [if_pos (by omega)]
          have := hpre a hra hap
          omega
        · subst hap
          rw [if_neg (by omega), if_pos rfl]
          exact hjb
        · rw [if_neg (by omega), if_neg (by omega)]
          exact key (a-1) (b-1) (by omega) (by omega) (by omega)
    · rw [if_pos (by omega)] at hra
      rw [if_pos (by omega)] at hrb
      have hpr : (p : Int) ≤ gI M.rowind_ r := by
        have := hmono r (by omega) (i.toNat+1) (by omega)
        omega
      rw [if_neg (by omega), if_neg (by omega), if_neg (by omega), if_neg (by omega)]
      have hble : (b-1 : Nat) < M.col_.length := by
        have := hub (r+1) (by omega)
        omega
      exact hsort r (by omega) (b-1) hble (a-1) (by omega) (by omega) (by omega)
  · show ∀ k, k < (M.col_.insertIdx p j).length →
        0 ≤ gI (M.col_.insertIdx p j) k ∧ gI (M.col_.insertIdx p j) k < M.ncol
    intro k hk
    have hkl : k < M.col_.length + 1 := by omega
    rw [hgc k]
    split_ifs with h1 h2
    · exact hcb k (by omega)
    · exact ⟨hj0, hj⟩
    · exact hcb (k-1) (by omega)

/-- Length of the dense column pattern. -/
theorem denseCol_length (n m : Nat) : (denseCol n m).length = n * m := by
  induction n with
  | zero => simp [denseCol]
  | succ n ih =>
    simp only [denseCol, List.length_append, List.length_map, List.length_range, ih]
    ring

/-- Entry of the dense column pattern at row i, offset k. -/
theorem gI_denseCol (n m : Nat) : ∀ i k : Nat, i < n → k < m →
    gI (denseCol n m) (i * m + k) = (k : Int) := by
  induction n with
  | zero => intro i k hi _; exact absurd hi (Nat.not_lt_zero i)
  | succ n ih =>
    intro i k hi hk
    cases i with
    | zero =>
      have h0 : 0 * m + k = k := by omega
      simp only [denseCol, gI, h0]
      rw [List.getD_append _ _ _ _ (by simp only [List.length_map, List.length_range]; omega)]
      rw [List.getD_eq_getElem _ _ (by simp only [List.length_map, List.length_range]; omega)]
      simp
    | succ i =>
      have harr : (i+1) * m + k = m + (i * m + k) := by ring
      simp only [denseCol, gI, harr]
      rw [List.getD_append_right _ _ _ _
        (by simp only [List.length_map, List.length_range]; omega)]
      have hsub : m + (i * m + k) - ((List.range m).map (fun (j : Nat) => (j : Int))).length
          = i * m + k := by
        simp only [List.length_map, List.length_range]
        omega
      rw [hsub]
      exact ih i k (by omega) hk

/-- Entry of the dense row offsets. -/
theorem gI_denseRowind (n m : Nat) : ∀ r : Nat, r ≤ n →
    gI (denseRowind n m) r = ((r * m : Nat) : Int) := by
  intro r hr
  simp only [gI, denseRowind]
  rcases Nat.lt_or_ge r n with h | h
  · rw [List.getD_append _ _ _ _ (by simp only [List.length_map, List.length_range]; omega)]
    rw [List.getD_eq_getElem _ _ (by simp only [List.length_map, List.length_range]; omega)]
    simp
  · have hrn : r = n := by omega
    subst hrn
    rw [List.getD_append_right _ _ _ _ (by simp)]
    simp

/-- makeEmpty establishes the invariant for non-negative shapes. -/
theorem inv_makeEmpty (n m : Int) (hn : 0 ≤ n) (hm : 0 ≤ m) :
    Inv (makeEmpty n m : Matrix T) := by
  have hrep : ∀ a : Nat, gI (List.replicate (n+1).toNat (0:Int)) a = 0 := by
    intro a
    show (List.replicate (n+1).toNat (0:Int)).getD a 0 = 0
    rw [getD_replicate]
    split_ifs <;> rfl
  refine ⟨hn, hm, ?_, hrep 0, ?_, rfl, ?_, ?_, ?_⟩
  · show (List.replicate (n+1).toNat (0:Int)).length = n.toNat + 1
    rw [List.length_replicate]
    omega
  · show gI (List.replicate (n+1).toNat (0:Int)) n.toNat = ((0:Nat) : Int)
    rw [hrep n.toNat]
    rfl
  · intro b _ a _
    show gI (List.replicate (n+1).toNat (0:Int)) a ≤ gI (List.replicate (n+1).toNat (0:Int)) b
    rw [hrep a, hrep b]
  · intro r _ b hb
    exact absurd (show b < (0:Nat) from hb) (Nat.not_lt_zero b)
  · intro k hk
    exact absurd (show k < (0:Nat) from hk) (Nat.not_lt_zero k)

/-- makeDense establishes the invariant for non-negative shapes. -/
theorem inv_makeDense (n m : Int) (hn : 0 ≤ n) (hm : 0 ≤ m) (val : T) :
    Inv (makeDense n m val) := by
  have hrl := gI_denseRowind n.toNat m.toNat
  refine ⟨hn, hm, ?_, ?_, ?_, ?_, ?_, ?_, ?_⟩
  · show (denseRowind n.toNat m.toNat).length = n.toNat + 1
    simp [denseRowind]
  · show gI (denseRowind n.toNat m.toNat) 0 = 0
    rw [hrl 0 (by omega)]
    simp
  · show gI (denseRowind n.toNat m.toNat) n.toNat
      = ((List.replicate (n.toNat * m.toNat) val).length : Int)
    rw [hrl n.toNat le_rfl, List.length_replicate]
  · show (denseCol n.toNat m.toNat).length = (List.replicate (n.toNat * m.toNat) val).length
    rw [denseCol_length, List.length_replicate]
  · intro b hb a hab
    have hb2 : b < (denseRowind n.toNat m.toNat).length := hb
    have hlen : (denseRowind n.toNat m.toNat).length = n.toNat + 1 := by simp [denseRowind]
    have hbl : b ≤ n.toNat := by omega
    show gI (denseRowind n.toNat m.toNat) a ≤ gI (denseRowind n.toNat m.toNat) b
    rw [hrl a (by omega), hrl b hbl]
    have hmul : a * m.toNat ≤ b * m.toNat := Nat.mul_le_mul_right _ hab
    omega
  · intro r hr b hb a hab hra hrb
    have hr2 : r < n.toNat := hr
    have hb2 : b < (denseCol n.toNat m.toNat).length := hb
    rw [denseCol_length] at hb2
    have hra2 : gI (denseRowind n.toNat m.toNat) r ≤ (a : Int) := hra
    have hrb2 : (b : Int) < gI (denseRowind n.toNat m.toNat) (r+1) := hrb
    rw [hrl r (by omega)] at hra2
    rw [hrl (r+1) (by omega)] at hrb2
    show gI (denseCol n.toNat m.toNat) a < gI (denseCol n.toNat m.toNat) b
    obtain ⟨ka, hka⟩ : ∃ ka, a = r * m.toNat + ka := ⟨a - r * m.toNat, by omega⟩
    obtain ⟨kb, hkb⟩ : ∃ kb, b = r * m.toNat + kb := ⟨b - r * m.toNat, by omega⟩
    subst hka
    subst hkb
    have hrbm : (r+1) * m.toNat = r * m.toNat + m.toNat := by ring
    rw [hrbm] at hrb2
    have hkbm : kb < m.toNat := by omega
    rw [gI_denseCol n.toNat m.toNat r ka (by omega) (by omega)]
    rw [gI_denseCol n.toNat m.toNat r kb (by omega) hkbm]
    omega
  · intro k hk
    have hk2 : k < (denseCol n.toNat m.toNat).length := hk
    rw [denseCol_length] at hk2
    have hm0 : 0 < m.toNat := by
      rcases Nat.eq_zero_or_pos m.toNat with h | h
      · rw [h, Nat.mul_zero] at hk2
        omega
      · exact h
    have h1 := Nat.div_add_mod k m.toNat
    have h2 : k % m.toNat < m.toNat := Nat.mod_lt _ hm0
    have h3 : k / m.toNat < n.toNat := (Nat.div_lt_iff_lt_mul hm0).mpr hk2
    have hdec : k = (k / m.toNat) * m.toNat + (k % m.toNat) := by
      rw [Nat.mul_comm (k / m.toNat) m.toNat]
      omega
    show 0 ≤ gI (denseCol n.toNat m.toNat) k ∧ gI (denseCol n.toNat m.toNat) k < m
    rw [hdec, gI_denseCol n.toNat m.toNat _ _ h3 h2]
    constructor
    · omega
    · omega

/-- Overwriting one stored value preserves the invariant. -/
theorem inv_setVal (M : Matrix T) (hI : Inv M) (k : Nat) (v : T) :
    Inv (M.setVal k v) := by
  obtain ⟨hn0, hc0, hrlen, hr0, hrlast, hclen, hmono, hsort, hcb⟩ := hI
  refine ⟨hn0, hc0, hrlen, hr0, ?_, ?_, hmono, hsort, hcb⟩
  · show gI M.rowind_ M.nrow.toNat = ((M.values.set k v).length : Int)
    rw [List.length_set]
    exact hrlast
  · show M.col_.length = (M.values.set k v).length
    rw [List.length_set]
    exact hclen

/-- Replacing the whole value storage by a list of the same length preserves
the invariant. -/
theorem inv_replaceValues (M : Matrix T) (hI : Inv M) (x : List T)
    (hx : x.length = M.values.length) :
    Inv { M with values := x } := by
  obtain ⟨hn0, hc0, hrlen, hr0, hrlast, hclen, hmono, hsort, hcb⟩ := hI
  refine ⟨hn0, hc0, hrlen, hr0, ?_, ?_, hmono, hsort, hcb⟩
  · show gI M.rowind_ M.nrow.toNat = (x.length : Int)
    rw [hx]
    exact hrlast
  · show M.col_.length = x.length
    rw [hx]
    exact hclen

/-- Construction from a bare scalar coincides with the dense 1-by-1 fill. -/
theorem scalarCtor_eq [Zero T] (v : T) : scalarCtor v = makeDense 1 1 v := rfl

/-- Successful write access at an in-bounds coordinate: under the invariant the
call returns a slot of row i carrying column j inside an invariant-satisfying
matrix of the same shape. -/
theorem getElementRef_ok [Zero T] (M : Matrix T) (hI : Inv M) (i j : Int)
    (hi0 : 0 ≤ i) (hi : i < M.nrow) (hj0 : 0 ≤ j) (hj : j < M.ncol) :
    ∃ N : Matrix T, ∃ k : Nat, getElementRef M i j = (N, .ok k) ∧ Inv N ∧
      N.nrow = M.nrow ∧ N.ncol = M.ncol ∧
      gI N.rowind_ i.toNat ≤ (k : Int) ∧ (k : Int) < gI N.rowind_ (i.toNat + 1) ∧
      gI N.col_ k = j ∧ k < N.values.length := by
  have hI2 := hI
  obtain ⟨hn0, hc0, hrlen, hr0, hrlast, hclen, hmono, hsort, hcb⟩ := hI2
  have hitn : i.toNat < M.nrow.toNat := by omega
  have hstople : gI M.rowind_ (i.toNat+1) ≤ (M.values.length : Int) := by
    have := hmono M.nrow.toNat (by omega) (i.toNat+1) (by omega)
    omega
  by_cases hex : ∃ k0 : Nat, gI M.rowind_ i.toNat ≤ (k0 : Int) ∧
      (k0 : Int) < gI M.rowind_ (i.toNat+1) ∧ gI M.col_ k0 = j
  · obtain ⟨k0, hk1, hk2, hk3⟩ := hex
    exact ⟨M, k0, getElementRef_found M hI i j k0 hi0 hi hk1 hk2 hk3, hI, rfl, rfl,
      hk1, hk2, hk3, by omega⟩
  · push_neg at hex
    obtain ⟨p, rw2, heq, hp1, hp2, hple, hpre, hpgt, hwlen, hwc⟩ :=
      getElementRef_insert M hI i j hi0 hi hj hex
    refine ⟨_, p, heq,
      inv_insertResult M hI i j hi0 hi hj0 hj p rw2 hp1 hp2 hple hpre hpgt hwlen hwc,
      rfl, rfl, ?_, ?_, ?_, ?_⟩
    · show gI rw2 i.toNat ≤ (p : Int)
      rw [hwc i.toNat, if_neg (by omega)]
      exact hp1
    · show (p : Int) < gI rw2 (i.toNat+1)
      rw [hwc (i.toNat+1), if_pos (by omega)]
      omega
    · show gI (M.col_.insertIdx p j) p = j
      rw [gI_insertIdx M.col_ p j (by omega) p, if_neg (by omega), if_pos rfl]
    · show p < (M.values.insertIdx p 0).length
      rw [List.length_insertIdx p _ (by omega)]
      omega

/-- Every matrix produced by the public operations satisfies the CRS invariant. -/
theorem reachable_inv [Zero T] [One T] (M : Matrix T) (h : Reachable M) : Inv M := by
  induction h with
  | mkEmpty n m hn hm => exact inv_makeEmpty n m hn hm
  | mkDense n m val hn hm => exact inv_makeDense n m hn hm val
  | mkScalar val =>
    rw [scalarCtor_eq]
    exact inv_makeDense 1 1 (by omega) (by omega) val
  | mkVec x =>
    show Inv { makeDense (x.length : Int) 1 (1:T) with values := x }
    apply inv_replaceValues (makeDense (x.length : Int) 1 (1:T))
      (inv_makeDense _ 1 (by omega) (by omega) 1) x
    show x.length = (List.replicate ((x.length : Int).toNat * (1:Int).toNat) (1:T)).length
    simp
  | mkShaped x n m M hn hm heq =>
    unfold fromVecShaped at heq
    by_cases hc : (x.length : Int) ≠ n * m
    · rw [if_pos hc] at heq
      cases heq
    · rw [if_neg hc] at heq
      push_neg at hc
      injection heq with hM
      subst hM
      apply inv_replaceValues (makeDense n m (1:T)) (inv_makeDense n m hn hm 1) x
      show x.length = (List.replicate (n.toNat * m.toNat) (1:T)).length
      rw [List.length_replicate]
      have hcast : ((n.toNat * m.toNat : Nat) : Int) = n * m := by
        push_cast
        rw [Int.toNat_of_nonneg hn, Int.toNat_of_nonneg hm]
      omega
  | insertStep M N i j k hM hi0 hi hj0 hj heq ih =>
    obtain ⟨N2, k2, heq2, hInv, _, _, _, _, _, _⟩ :=
      getElementRef_ok M ih i j hi0 hi hj0 hj
    rw [heq2] at heq
    injection heq with h1 h2
    subst h1
    exact hInv
  | assignStep M N i j k v hM hi0 hi hj0 hj heq ih =>
    obtain ⟨N2, k2, heq2, hInv, _, _, _, _, _, _⟩ :=
      getElementRef_ok M ih i j hi0 hi hj0 hj
    rw [heq2] at heq
    injection heq with h1 h2
    subst h1
    exact inv_setVal N2 hInv k v

/-- getElement throws the out-of-bounds CasadiException exactly on the upper
bound test of the source. -/
theorem getElement_oob [Zero T] (M : Matrix T) (i j : Int)
    (h : i ≥ M.nrow ∨ j ≥ M.ncol) :
    getElement M i j = .error (.indexError "Matrix::getElement: out of bounds") := by
  unfold getElement
  rw [if_pos (show i ≥ M.size1 ∨ j ≥ M.size2 from h)]

/-- getElementRef throws the out-of-bounds CasadiException exactly on the upper
bound test of the source, leaving the object unchanged. -/
theorem getElementRef_oob [Zero T] (M : Matrix T) (i j : Int)
    (h : i ≥ M.nrow ∨ j ≥ M.ncol) :
    getElementRef M i j
      = (M, .error (.indexError "Matrix::getElementRef: out of bounds")) := by
  unfold getElementRef
  rw [if_pos (show i ≥ M.size1 ∨ j ≥ M.size2 from h)]

/-- getElement with a negative row index that passes the upper bound test:
rowind_.at(i) throws std::out_of_range, not the IndexError of the spec. -/
theorem getElement_negRow [Zero T] (M : Matrix T) (i j : Int)
    (hneg : i < 0) (hi : i < M.nrow) (hj : j < M.ncol) :
    getElement M i j = .error .outOfRange := by
  unfold getElement
  rw [if_neg (by simp only [Matrix.size1, Matrix.size2]; omega)]
  rw [vecAt_err M.rowind_ i (Or.inl hneg)]

/-- getElementRef with a negative row index that passes the upper bound test:
rowind_[i] is undefined behaviour, not the IndexError of the spec. -/
theorem getElementRef_negRow [Zero T] (M : Matrix T) (i j : Int)
    (hneg : i < 0) (hi : i < M.nrow) (hj : j < M.ncol) :
    getElementRef M i j = (M, .error .ub) := by
  unfold getElementRef
  rw [if_neg (by simp only [Matrix.size1, Matrix.size2]; omega)]
  rw [vecIdx_err M.rowind_ i (Or.inl hneg)]

/-- Every in-bounds read on an invariant matrix succeeds; the column index may
even be negative. -/
theorem getElement_inbounds_ok [Zero T] (M : Matrix T) (hI : Inv M) (i j : Int)
    (hi0 : 0 ≤ i) (hi : i < M.nrow) (hj : j < M.ncol) :
    ∃ v, getElement M i j = .ok v := by
  by_cases hex : ∃ k0 : Nat, gI M.rowind_ i.toNat ≤ (k0 : Int) ∧
      (k0 : Int) < gI M.rowind_ (i.toNat+1) ∧ gI M.col_ k0 = j
  · obtain ⟨k0, hk1, hk2, hk3⟩ := hex
    exact ⟨_, getElement_stored M hI i j k0 hi0 hi hk1 hk2 hk3⟩
  · push_neg at hex
    exact ⟨0, getElement_absent M hI i j hi0 hi hj hex⟩

/-- Every in-bounds write access on an invariant matrix succeeds; the column
index may even be negative (the source then inserts the negative column). -/
theorem getElementRef_succeeds [Zero T] (M : Matrix T) (hI : Inv M) (i j : Int)
    (hi0 : 0 ≤ i) (hi : i < M.nrow) (hj : j < M.ncol) :
    ∃ N k, getElementRef M i j = (N, .ok k) := by
  by_cases hex : ∃ k0 : Nat, gI M.rowind_ i.toNat ≤ (k0 : Int) ∧
      (k0 : Int) < gI M.rowind_ (i.toNat+1) ∧ gI M.col_ k0 = j
  · obtain ⟨k0, hk1, hk2, hk3⟩ := hex
    exact ⟨M, k0, getElementRef_found M hI i j k0 hi0 hi hk1 hk2 hk3⟩
  · push_neg at hex
    obtain ⟨p, rw2, heq, _⟩ := getElementRef_insert M hI i j hi0 hi hj hex
    exact ⟨_, p, heq⟩

/-- The decidable invariant implies the invariant exactly as claim C1 words
it. -/
theorem inv_invClaimed (M : Matrix T) (hI : Inv M) : InvClaimed M := by
  obtain ⟨hn0, hc0, hrlen, hr0, hrlast, hclen, hmono, hsort, hcb⟩ := hI
  refine ⟨by omega, hr0, hrlast, hclen.symm, fun a b hab hb => hmono b hb a hab, ?_⟩
  intro r hr a b hra hab hrb
  have hb2 : b < M.col_.length := by
    have h1 := hmono M.nrow.toNat (by omega) (r+1) (by omega)
    omega
  exact hsort r hr b hb2 a hab hra hrb

/-- Reading an in-bounds coordinate of an invariant matrix yields the entry
value. -/
theorem getElement_ok_entry [Zero T] (M : Matrix T) (hI : Inv M) (i j : Int)
    (hi0 : 0 ≤ i) (hi : i < M.nrow) (hj : j < M.ncol) :
    getElement M i j = .ok (entry M i j) := by
  obtain ⟨v, hv⟩ := getElement_inbounds_ok M hI i j hi0 hi hj
  rw [hv]
  unfold entry
  rw [hv]

/-- mapM in the Except monad when every element maps to ok. -/
theorem mapM_ok {α β : Type} (g : α → β) :
    ∀ (l : List α) (f : α → Except MErr β),
    (∀ a ∈ l, f a = .ok (g a)) → l.mapM f = .ok (l.map g) := by
  intro l
  induction l with
  | nil => intro f _; rfl
  | cons x xs ih =>
    intro f h
    rw [List.mapM_cons, h x (List.mem_cons_self x xs),
        ih f (fun a ha => h a (List.mem_cons_of_mem x ha))]
    rfl

/-- Splitting a comma-joined rendering of a range into head and shifted tail. -/
theorem joinShift (g : Nat → String) (n : Nat) :
    commaJoin ((List.range (n+1)).map g) =
      g 0 ++ String.join (((List.range n).map (fun d => g (d+1))).map
        (fun s => "," ++ s)) := by
  rw [List.range_succ_eq_map, List.map_cons]
  simp only [commaJoin]
  congr 1
  simp only [List.map_map]
  rfl

/-- Comma-joined rendering of the integer coordinates 0..n-1: head plus a
comma-prefixed shifted tail, matching the loop shape of the print routines. -/
theorem joinShiftInt (g : Int → String) (n : Int) (hn : 0 < n) :
    commaJoin ((List.range n.toNat).map (fun r : Nat => g (r : Int))) =
      g 0 ++ String.join (((List.range (n - 1).toNat).map
        (fun d : Nat => g (1 + (d : Int)))).map (fun s => "," ++ s)) := by
  have hnn : n.toNat = (n - 1).toNat + 1 := by omega
  rw [hnn, joinShift]
  simp only [Nat.cast_zero]
  congr 1
  simp only [List.map_map]
  apply congrArg String.join
  apply List.map_congr_left
  intro d _
  simp only [Function.comp]
  have hcast : ((d + 1 : Nat) : Int) = 1 + (d : Int) := by push_cast; ring
  rw [hcast]

/-- One printed row of printMatrix equals the comma-joined entries of the row. -/
theorem rowStr_fmt [Zero T] (f : T → String) (M : Matrix T) (hI : Inv M) (i : Int)
    (hi0 : 0 ≤ i) (hi : i < M.nrow) (hc : 0 < M.ncol) :
    rowStr f M i = .ok (commaJoin ((List.range M.ncol.toNat).map
      (fun c : Nat => f (entry M i (c : Int))))) := by
  have h00 : getElement M i 0 = .ok (entry M i 0) :=
    getElement_ok_entry M hI i 0 hi0 hi hc
  have hrest := mapM_ok (fun d : Nat => entry M i (1 + (d : Int)))
    (List.range (M.size2 - 1).toNat) (fun d => getElement M i (1 + (d : Int)))
    (fun d hd => getElement_ok_entry M hI i (1 + (d : Int)) hi0 hi
      (by
        have hdm := List.mem_range.mp hd
        have hs : M.size2 = M.ncol := rfl
        omega))
  unfold rowStr
  rw [h00, hrest]
  show Except.ok _ = Except.ok _
  rw [joinShiftInt (fun c : Int => f (entry M i c)) M.ncol hc]
  have hjoin : String.join (((List.range (M.size2 - 1).toNat).map
        (fun d : Nat => entry M i (1 + (d : Int)))).map (fun v => "," ++ f v))
      = String.join (((List.range (M.ncol - 1).toNat).map
        (fun d : Nat => f (entry M i (1 + (d : Int))))).map (fun s => "," ++ s)) := by
    rw [List.map_map, List.map_map]
    rfl
  rw [hjoin]

/-- printVector output format. -/
theorem printVector_fmt [Zero T] (f : T → String) (M : Matrix T) (hI : Inv M)
    (hr : 0 < M.nrow) (hc : 0 < M.ncol) :
    printVector f M = .ok ("[" ++ toString M.nrow ++ "](" ++
      commaJoin ((List.range M.nrow.toNat).map
        (fun r : Nat => f (entry M (r : Int) 0)))
      ++ ")") := by
  have h00 : getElement M 0 0 = .ok (entry M 0 0) :=
    getElement_ok_entry M hI 0 0 (by omega) hr hc
  have hrest := mapM_ok (fun d : Nat => entry M (1 + (d : Int)) 0)
    (List.range (M.size1 - 1).toNat) (fun d => getElement M (1 + (d : Int)) 0)
    (fun d hd => getElement_ok_entry M hI (1 + (d : Int)) 0
      (by omega)
      (by
        have hdm := List.mem_range.mp hd
        have hs : M.size1 = M.nrow := rfl
        omega)
      hc)
  unfold printVector
  rw [h00, hrest]
  show Except.ok _ = Except.ok _
  rw [joinShiftInt (fun r : Int => f (entry M r 0)) M.nrow hr]
  have hjoin : String.join (((List.range (M.size1 - 1).toNat).map
        (fun d : Nat => entry M (1 + (d : Int)) 0)).map (fun v => "," ++ f v))
      = String.join (((List.range (M.nrow - 1).toNat).map
        (fun d : Nat => f (entry M (1 + (d : Int)) 0))).map (fun s => "," ++ s)) := by
    rw [List.map_map, List.map_map]
    rfl
  rw [hjoin]
  simp only [String.append_assoc]
  rfl

/-- printMatrix output format. -/
theorem printMatrix_fmt [Zero T] (f : T → String) (M : Matrix T) (hI : Inv M)
    (hr : 0 < M.nrow) (hc : 0 < M.ncol) :
    printMatrix f M = .ok ("[" ++ toString M.nrow ++ "," ++ toString M.ncol ++ "](" ++
      commaJoin ((List.range M.nrow.toNat).map (fun r : Nat =>
        "(" ++ commaJoin ((List.range M.ncol.toNat).map
          (fun c : Nat => f (entry M (r : Int) (c : Int)))) ++ ")"))
      ++ ")") := by
  have h0 : rowStr f M 0 = .ok (commaJoin ((List.range M.ncol.toNat).map
      (fun c : Nat => f (entry M 0 (c : Int))))) :=
    rowStr_fmt f M hI 0 (by omega) hr hc
  have hrest := mapM_ok (fun d : Nat => commaJoin ((List.range M.ncol.toNat).map
      (fun c : Nat => f (entry M (1 + (d : Int)) (c : Int)))))
    (List.range (M.size1 - 1).toNat) (fun d => rowStr f M (1 + (d : Int)))
    (fun d hd => rowStr_fmt f M hI (1 + (d : Int))
      (by omega)
      (by
        have hdm := List.mem_range.mp hd
        have hs : M.size1 = M.nrow := rfl
        omega)
      hc)
  unfold printMatrix
  rw [h0, hrest]
  show Except.ok _ = Except.ok _
  rw [joinShiftInt (fun r : Int => "(" ++ commaJoin ((List.range M.ncol.toNat).map
      (fun c : Nat => f (entry M r (c : Int)))) ++ ")") M.nrow hr]
  have lit1 : ("](" : String) = "]" ++ "(" := rfl
  have lit2 : (",(" : String) = "," ++ "(" := rfl
  have lit3 : ("((" : String) = "(" ++ "(" := rfl
  simp only [lit1, lit2, lit3, List.map_map, String.append_assoc]
  rfl

/-- printScalar output for a one-element matrix satisfying the invariant. -/
theorem printScalar_fmt [Zero T] (f : T → String) (M : Matrix T) (hI : Inv M)
    (hnum : M.numel = 1) :
    printScalar f M = .ok (f (entry M 0 0)) := by
  have hI2 := hI
  obtain ⟨hn0, hc0, _⟩ := hI2
  have hmul : M.nrow * M.ncol = 1 := hnum
  have hn1 : M.nrow = 1 := Int.eq_one_of_mul_eq_one_right hn0 hmul
  have hc1 : M.ncol = 1 := Int.eq_one_of_mul_eq_one_left hc0 hmul
  unfold printScalar
  rw [if_neg (fun hne => hne hnum)]
  rw [getElement_ok_entry M hI 0 0 (by omega) (by omega) (by omega)]

/-- Reading a dense-patterned matrix whose value storage was replaced by x:
row-major slot i*m+j. -/
theorem denseShape_get [Zero T] (n m : Int) (hn : 0 ≤ n) (hm : 0 ≤ m)
    (val : T) (x : List T) (hx : x.length = n.toNat * m.toNat)
    (i j : Int) (hi0 : 0 ≤ i) (hi : i < n) (hj0 : 0 ≤ j) (hj : j < m) :
    getElement { makeDense n m val with values := x } i j
      = .ok (x.getD (i.toNat * m.toNat + j.toNat) 0) := by
  have hI : Inv { makeDense n m val with values := x } :=
    inv_replaceValues (makeDense n m val) (inv_makeDense n m hn hm val) x
      (by
        show x.length = (List.replicate (n.toNat * m.toNat) val).length
        rw [List.length_replicate]
        exact hx)
  have h1 : gI (denseRowind n.toNat m.toNat) i.toNat = ((i.toNat * m.toNat : Nat) : Int) :=
    gI_denseRowind _ _ i.toNat (by omega)
  have h2 : gI (denseRowind n.toNat m.toNat) (i.toNat+1)
      = (((i.toNat+1) * m.toNat : Nat) : Int) :=
    gI_denseRowind _ _ (i.toNat+1) (by omega)
  have hexp : (i.toNat+1) * m.toNat = i.toNat * m.toNat + m.toNat := by ring
  have hk1 : gI (denseRowind n.toNat m.toNat) i.toNat
      ≤ ((i.toNat * m.toNat + j.toNat : Nat) : Int) := by
    rw [h1]
    push_cast
    omega
  have hk2 : ((i.toNat * m.toNat + j.toNat : Nat) : Int)
      < gI (denseRowind n.toNat m.toNat) (i.toNat+1) := by
    rw [h2, hexp]
    push_cast
    omega
  have hcol : gI (denseCol n.toNat m.toNat) (i.toNat * m.toNat + j.toNat) = j := by
    rw [gI_denseCol n.toNat m.toNat i.toNat j.toNat (by omega) (by omega)]
    omega
  exact getElement_stored { makeDense n m val with values := x } hI i j
    (i.toNat * m.toNat + j.toNat) hi0 hi hk1 hk2 hcol

/-- C1: after any sequence of valid public operations (construction, in-bounds
write access, assignment through a returned handle, re-initialization) the
matrix satisfies len(rowind) == nrow+1, rowind[0] == 0, rowind[nrow] ==
len(values) == len(col), rowind is non-decreasing, and within every row i the
column slice col[rowind[i] : rowind[i+1]) is strictly increasing. -/
theorem spec_C1 [Zero T] [One T] (M : Matrix T) (h : Reachable M) : InvClaimed M :=
  inv_invClaimed M (reachable_inv M h)

/-- Witness for C1 on the concrete run of spec scenario A: makeEmpty(3,3)
followed by get_or_insert(1,2). -/
theorem spec_C1_witness :
    InvClaimed ({ nrow := 3, ncol := 3, values := [0], col_ := [2],
                  rowind_ := [0, 0, 1, 1] } : Matrix Int) :=
  spec_C1 _ (Reachable.insertStep (makeEmpty 3 3) _ 1 2 0
    (Reachable.mkEmpty 3 3 (by decide) (by decide))
    (by decide) (by decide) (by decide) (by decide) rfl)

/-- C2: writing value v through the slot handle returned by get_or_insert(i,j)
makes get(i,j) return v, for every invariant matrix and in-bounds coordinate. -/
theorem spec_C2 [Zero T] (M : Matrix T) (hI : Inv M) (i j : Int)
    (hi0 : 0 ≤ i) (hi : i < M.nrow) (hj0 : 0 ≤ j) (hj : j < M.ncol)
    (N : Matrix T) (k : Nat) (heq : getElementRef M i j = (N, .ok k)) (v : T) :
    getElement (N.setVal k v) i j = .ok v := by
  obtain ⟨N2, k2, heq2, hInv, hnr, hnc, hk1, hk2, hk3, hk4⟩ :=
    getElementRef_ok M hI i j hi0 hi hj0 hj
  rw [heq2] at heq
  injection heq with h1 h2
  injection h2 with h2
  subst h1
  subst h2
  have hset := getElement_stored (N2.setVal k2 v) (inv_setVal N2 hInv k2 v) i j k2
    hi0 (by rw [show (N2.setVal k2 v).nrow = N2.nrow from rfl, hnr]; exact hi)
    hk1 hk2 hk3
  rw [hset]
  congr 1
  show (N2.values.set k2 v).getD k2 0 = v
  rw [getD_set_of_lt N2.values k2 v 0 hk4 k2, if_pos rfl]

/-- Witness for C2 on scenario A: inserting at (1,2) of an empty 3-by-3 matrix
and assigning 7 makes get(1,2) return 7. -/
theorem spec_C2_witness :
    getElement (({ nrow := 3, ncol := 3, values := [0], col_ := [2],
                   rowind_ := [0, 0, 1, 1] } : Matrix Int).setVal 0 7) 1 2
      = .ok 7 :=
  spec_C2 (makeEmpty 3 3 : Matrix Int) (by decide) 1 2
    (by decide) (by decide) (by decide) (by decide) _ 0 rfl 7

/-- C4: a second get_or_insert at the same in-bounds coordinate changes nothing
(the returned matrix is the same object, so nnz, col and rowind are unchanged)
and returns the same slot. -/
theorem spec_C4 [Zero T] (M : Matrix T) (hI : Inv M) (i j : Int)
    (hi0 : 0 ≤ i) (hi : i < M.nrow) (hj0 : 0 ≤ j) (hj : j < M.ncol)
    (N : Matrix T) (k : Nat) (heq : getElementRef M i j = (N, .ok k)) :
    getElementRef N i j = (N, .ok k) := by
  obtain ⟨N2, k2, heq2, hInv, hnr, hnc, hk1, hk2, hk3, hk4⟩ :=
    getElementRef_ok M hI i j hi0 hi hj0 hj
  rw [heq2] at heq
  injection heq with h1 h2
  injection h2 with h2
  subst h1
  subst h2
  exact getElementRef_found N2 hInv i j k2 hi0 (by rw [hnr]; exact hi) hk1 hk2 hk3

/-- Witness for C4: repeating get_or_insert(1,2) on the matrix produced by the
first insertion returns the same state and the same slot. -/
theorem spec_C4_witness :
    getElementRef ({ nrow := 3, ncol := 3, values := [0], col_ := [2],
                     rowind_ := [0, 0, 1, 1] } : Matrix Int) 1 2
      = (({ nrow := 3, ncol := 3, values := [0], col_ := [2],
            rowind_ := [0, 0, 1, 1] } : Matrix Int), .ok 0) :=
  spec_C4 (makeEmpty 3 3 : Matrix Int) (by decide) 1 2
    (by decide) (by decide) (by decide) (by decide) _ 0 rfl

/-- C5: for an in-bounds coordinate, get returns the zero of T when the
coordinate is absent from the stored pattern, and the stored value when a slot
of row i carries column j; get performs no mutation (it is a const read in the
embedding). -/
theorem spec_C5 [Zero T] (M : Matrix T) (hI : Inv M) (i j : Int)
    (hi0 : 0 ≤ i) (hi : i < M.nrow) (hj0 : 0 ≤ j) (hj : j < M.ncol) :
    ((∀ k : Nat, gI M.rowind_ i.toNat ≤ (k : Int) →
        (k : Int) < gI M.rowind_ (i.toNat + 1) → gI M.col_ k ≠ j) →
      getElement M i j = .ok 0) ∧
    (∀ k : Nat, gI M.rowind_ i.toNat ≤ (k : Int) →
        (k : Int) < gI M.rowind_ (i.toNat + 1) → gI M.col_ k = j →
      getElement M i j = .ok (M.values.getD k 0)) :=
  ⟨fun habs => getElement_absent M hI i j hi0 hi hj habs,
   fun k hk1 hk2 hk3 => getElement_stored M hI i j k hi0 hi hk1 hk2 hk3⟩

/-- Witness for C5: reading the stored slot (1,2) of the scenario A matrix
(after the value was set to 7) returns 7. -/
theorem spec_C5_witness :
    getElement ({ nrow := 3, ncol := 3, values := [7], col_ := [2],
                  rowind_ := [0, 0, 1, 1] } : Matrix Int) 1 2 = .ok 7 :=
  (spec_C5 ({ nrow := 3, ncol := 3, values := [7], col_ := [2],
              rowind_ := [0, 0, 1, 1] } : Matrix Int) (by decide) 1 2
    (by decide) (by decide) (by decide) (by decide)).2 0
    (by decide) (by decide) (by decide)

/-- C10: for a valid row index and any negative column index, get does not fail
and returns zero, because the bounds test checks only the upper bounds and the
scan breaks at the first stored column (which is non-negative) or on an empty
row. -/
theorem spec_C10 [Zero T] (M : Matrix T) (hI : Inv M) (i j : Int)
    (hi0 : 0 ≤ i) (hi : i < M.nrow) (hj : j < 0) :
    getElement M i j = .ok 0 := by
  have hI2 := hI
  obtain ⟨hn0, hc0, hrlen, hr0, hrlast, hclen, hmono, hsort, hcb⟩ := hI2
  apply getElement_absent M hI i j hi0 hi (by omega)
  intro k hk1 hk2
  have hklen : k < M.col_.length := by
    have := hmono M.nrow.toNat (by omega) (i.toNat+1) (by omega)
    omega
  have := hcb k hklen
  omega

/-- Witness for C10: get(0,-5) on the scenario A matrix returns zero without
raising. -/
theorem spec_C10_witness :
    getElement ({ nrow := 3, ncol := 3, values := [7], col_ := [2],
                  rowind_ := [0, 0, 1, 1] } : Matrix Int) 1 (-5) = .ok 0 :=
  spec_C10 ({ nrow := 3, ncol := 3, values := [7], col_ := [2],
              rowind_ := [0, 0, 1, 1] } : Matrix Int) (by decide) 1 (-5)
    (by decide) (by decide) (by decide)

/-- C6: the dense-fill constructor (n, m, val) yields numel == n*m, get(i,j) ==
val on every valid coordinate, rowind[i+1]-rowind[i] == m and rowind[i] == i*m
for every row, and the column slice of row i equal to [0, 1, ..., m-1]. -/
theorem spec_C6 [Zero T] (n m : Int) (hn : 0 ≤ n) (hm : 0 ≤ m) (val : T) :
    (makeDense n m val).numel = n * m ∧
    (∀ i j : Int, 0 ≤ i → i < n → 0 ≤ j → j < m →
      getElement (makeDense n m val) i j = .ok val) ∧
    (∀ r : Nat, r < n.toNat →
      gI (makeDense n m val).rowind_ (r+1) - gI (makeDense n m val).rowind_ r = m) ∧
    (∀ r : Nat, r < n.toNat → gI (makeDense n m val).rowind_ r = (r : Int) * m) ∧
    (∀ r k : Nat, r < n.toNat → k < m.toNat →
      gI (makeDense n m val).col_ (r * m.toNat + k) = (k : Int)) := by
  refine ⟨rfl, ?_, ?_, ?_, ?_⟩
  · intro i j hi0 hi hj0 hj
    have hget := denseShape_get n m hn hm val
      (List.replicate (n.toNat * m.toNat) val) (by rw [List.length_replicate])
      i j hi0 hi hj0 hj
    rw [show ({ makeDense n m val with
          values := List.replicate (n.toNat * m.toNat) val } : Matrix T)
        = makeDense n m val from rfl] at hget
    rw [hget]
    congr 1
    rw [getD_replicate]
    have hmul : (i.toNat + 1) * m.toNat ≤ n.toNat * m.toNat :=
      Nat.mul_le_mul_right _ (by omega)
    have hexp : (i.toNat + 1) * m.toNat = i.toNat * m.toNat + m.toNat := by ring
    rw [if_pos (by omega)]
  · intro r hr
    show gI (denseRowind n.toNat m.toNat) (r+1) - gI (denseRowind n.toNat m.toNat) r = m
    rw [gI_denseRowind _ _ (r+1) (by omega), gI_denseRowind _ _ r (by omega)]
    have hexp : (r+1) * m.toNat = r * m.toNat + m.toNat := by ring
    rw [hexp]
    push_cast
    omega
  · intro r hr
    show gI (denseRowind n.toNat m.toNat) r = (r : Int) * m
    rw [gI_denseRowind _ _ r (by omega)]
    push_cast
    rw [Int.toNat_of_nonneg hm]
  · intro r k hr hk
    show gI (denseCol n.toNat m.toNat) (r * m.toNat + k) = (k : Int)
    exact gI_denseCol n.toNat m.toNat r k hr hk

/-- Witness for C6: the dense 2-by-3 fill with 5 reads 5 at (1,2). -/
theorem spec_C6_witness :
    getElement (makeDense 2 3 (5:Int)) 1 2 = .ok 5 :=
  (spec_C6 2 3 (by decide) (by decide) (5:Int)).2.1 1 2
    (by decide) (by decide) (by decide) (by decide)

/-- C7: the scalar constructor from a bare value equals the dense-fill
constructor (1, 1, val): a 1-by-1 matrix with one stored entry whose (0,0)
entry reads back as the value. -/
theorem spec_C7 [Zero T] (v : T) :
    scalarCtor v = makeDense 1 1 v ∧
    (scalarCtor v).nrow = 1 ∧ (scalarCtor v).ncol = 1 ∧
    (scalarCtor v).values.length = 1 ∧
    getElement (scalarCtor v) 0 0 = .ok v :=
  ⟨rfl, rfl, rfl, rfl, rfl⟩

/-- Witness for C7 at the concrete value 9. -/
theorem spec_C7_witness :
    scalarCtor (9:Int) = makeDense 1 1 9 ∧ getElement (scalarCtor (9:Int)) 0 0 = .ok 9 :=
  ⟨(spec_C7 (9:Int)).1, (spec_C7 (9:Int)).2.2.2.2⟩

/-- C8: constructing from a flat sequence with an explicit shape throws the
dimension mismatch CasadiException exactly when the length differs from n*m;
on a length match it yields the fully dense matrix holding the sequence in
row-major order, as in the concrete 2-by-2 example from [1,2,3,4]. -/
theorem spec_C8 (T : Type) [Zero T] [One T] :
    (∀ (x : List T) (n m : Int),
      fromVecShaped x n m = .error (.dimensionError
          "Matrix::Matrix(const std::vector<double>& x,  int n, int m): dimension mismatch")
        ↔ (x.length : Int) ≠ n * m) ∧
    (∀ (x : List T) (n m : Int), 0 ≤ n → 0 ≤ m → (x.length : Int) = n * m →
      ∃ N, fromVecShaped x n m = .ok N ∧
        ∀ i j : Int, 0 ≤ i → i < n → 0 ≤ j → j < m →
          getElement N i j = .ok (x.getD (i.toNat * m.toNat + j.toNat) 0)) ∧
    (∃ N : Matrix Int, fromVecShaped [1,2,3,4] 2 2 = .ok N ∧
      getElement N 0 0 = .ok 1 ∧ getElement N 0 1 = .ok 2 ∧
      getElement N 1 0 = .ok 3 ∧ getElement N 1 1 = .ok 4) := by
  refine ⟨?_, ?_, ?_⟩
  · intro x n m
    constructor
    · intro h
      by_cases hc : (x.length : Int) = n * m
      · exfalso
        unfold fromVecShaped at h
        rw [if_neg (by omega)] at h
        exact Except.noConfusion h
      · exact hc
    · intro h
      unfold fromVecShaped
      rw [if_pos h]
  · intro x n m hn hm hlen
    have hcast : ((n.toNat * m.toNat : Nat) : Int) = n * m := by
      push_cast
      rw [Int.toNat_of_nonneg hn, Int.toNat_of_nonneg hm]
    refine ⟨{ makeDense n m (1 : T) with values := x }, ?_, ?_⟩
    · unfold fromVecShaped
      rw [if_neg (by omega)]
    · intro i j hi0 hi hj0 hj
      exact denseShape_get n m hn hm (1 : T) x (by omega) i j hi0 hi hj0 hj
  · exact ⟨{ nrow := 2, ncol := 2, values := [1,2,3,4], col_ := [0,1,0,1],
             rowind_ := [0,2,4] }, rfl, rfl, rfl, rfl, rfl⟩

/-- Witness for C8: scenario D, a sequence of length 3 with shape (2,2) throws
the dimension mismatch exception. -/
theorem spec_C8_witness :
    fromVecShaped ([1,2,3] : List Int) 2 2 = .error (.dimensionError
      "Matrix::Matrix(const std::vector<double>& x,  int n, int m): dimension mismatch") :=
  ((spec_C8 Int).1 [1,2,3] 2 2).mpr (by decide)

/-- Counterexample to C3 as stated: the coordinate (0,-1) lies outside
[0,ncol), yet get on a 1-by-1 matrix does not fail with IndexError; it returns
zero. -/
theorem spec_C3_counterexample :
    getElement (makeEmpty 1 1 : Matrix Int) 0 (-1) = .ok 0 ∧
    ¬ ∃ s, getElement (makeEmpty 1 1 : Matrix Int) 0 (-1)
        = .error (.indexError s) := by
  refine ⟨rfl, ?_⟩
  rintro ⟨s, hs⟩
  rw [show getElement (makeEmpty 1 1 : Matrix Int) 0 (-1) = .ok 0 from rfl] at hs
  exact Except.noConfusion hs

/-- C3 amended: get and get_or_insert throw IndexError exactly when i >= nrow
or j >= ncol; in-bounds coordinates (0 <= i < nrow, 0 <= j < ncol) never fail;
a write access that fails with IndexError commits no mutation.  (Negative
coordinates that pass the upper bound test do not raise IndexError: a negative
column returns zero on read and inserts on write, a negative row hits
std::out_of_range on read and undefined behaviour on write.) -/
theorem spec_C3_amended [Zero T] (M : Matrix T) (hI : Inv M) (i j : Int) :
    ((∃ s, getElement M i j = .error (.indexError s)) ↔ (M.nrow ≤ i ∨ M.ncol ≤ j)) ∧
    ((∃ s, (getElementRef M i j).2 = .error (.indexError s)) ↔ (M.nrow ≤ i ∨ M.ncol ≤ j)) ∧
    (0 ≤ i → i < M.nrow → 0 ≤ j → j < M.ncol →
      (∃ v, getElement M i j = .ok v) ∧ ∃ N k, getElementRef M i j = (N, .ok k)) ∧
    (∀ s, (getElementRef M i j).2 = .error (.indexError s) → (getElementRef M i j).1 = M) := by
  by_cases hoob : M.nrow ≤ i ∨ M.ncol ≤ j
  · refine ⟨⟨fun _ => hoob, fun _ => ⟨_, getElement_oob M i j hoob⟩⟩,
      ⟨fun _ => hoob, fun _ => ?_⟩, ?_, ?_⟩
    · rw [getElementRef_oob M i j hoob]
      exact ⟨_, rfl⟩
    · intro hi0 hi hj0 hj
      exact absurd hoob (by omega)
    · intro s _
      rw [getElementRef_oob M i j hoob]
  · push_neg at hoob
    obtain ⟨hi, hj⟩ := hoob
    rcases lt_or_ge i 0 with hin | hin
    · have hge := getElement_negRow M i j hin hi hj
      have hgr := getElementRef_negRow M i j hin hi hj
      refine ⟨⟨?_, fun h => absurd h (by omega)⟩,
        ⟨?_, fun h => absurd h (by omega)⟩, ?_, ?_⟩
      · rintro ⟨s, hs⟩
        rw [hge] at hs
        injection hs with hs
        exact MErr.noConfusion hs
      · rintro ⟨s, hs⟩
        rw [hgr] at hs
        injection hs with hs
        exact MErr.noConfusion hs
      · intro hi0 _ _ _
        exact absurd hi0 (by omega)
      · intro s hs
        rw [hgr] at hs
        injection hs with hs
        exact MErr.noConfusion hs
    · obtain ⟨v, hv⟩ := getElement_inbounds_ok M hI i j hin hi hj
      obtain ⟨N, k, hr⟩ := getElementRef_succeeds M hI i j hin hi hj
      refine ⟨⟨?_, fun h => absurd h (by omega)⟩,
        ⟨?_, fun h => absurd h (by omega)⟩,
        fun _ _ _ _ => ⟨⟨v, hv⟩, ⟨N, k, hr⟩⟩, ?_⟩
      · rintro ⟨s, hs⟩
        rw [hv] at hs
        exact Except.noConfusion hs
      · rintro ⟨s, hs⟩
        rw [hr] at hs
        exact Except.noConfusion hs
      · intro s hs
        rw [hr] at hs
        exact Except.noConfusion hs

/-- Witness for the amended C3: get(5,0) on a 2-by-2 matrix fails with the
IndexError exception. -/
theorem spec_C3_witness :
    ∃ s, getElement (makeEmpty 2 2 : Matrix Int) 5 0 = .error (.indexError s) :=
  ((spec_C3_amended (makeEmpty 2 2 : Matrix Int) (by decide) 5 0).1).mpr (by decide)

/-- C9: print dispatches on the shape and produces exactly the literal
"<empty expression>" when numel == 0, the bare rendered value when numel == 1,
"[nrow](v0,...,v(nrow-1))" when ncol == 1 and nrow > 1, and otherwise
"[nrow,ncol]((row0),(row1),...)" with comma-joined values per row, comma-joined
row groups, and one extra enclosing pair of parentheses; the dense 2-by-2
matrix [1,2;3,4] renders as "[2,2]((1,2),(3,4))". -/
theorem spec_C9 [Zero T] (f : T → String) (M : Matrix T) (hI : Inv M) :
    (M.numel = 0 → printMat f M = .ok "<empty expression>") ∧
    (M.numel = 1 → printMat f M = .ok (f (entry M 0 0))) ∧
    (M.ncol = 1 → 1 < M.nrow → printMat f M = .ok
      ("[" ++ toString M.nrow ++ "](" ++
        commaJoin ((List.range M.nrow.toNat).map
          (fun r : Nat => f (entry M (r : Int) 0))) ++ ")")) ∧
    (1 < M.ncol → 0 < M.nrow → printMat f M = .ok
      ("[" ++ toString M.nrow ++ "," ++ toString M.ncol ++ "](" ++
        commaJoin ((List.range M.nrow.toNat).map (fun r : Nat =>
          "(" ++ commaJoin ((List.range M.ncol.toNat).map
            (fun c : Nat => f (entry M (r : Int) (c : Int)))) ++ ")")) ++ ")")) ∧
    (∃ N : Matrix Int, fromVecShaped ([1,2,3,4] : List Int) 2 2 = .ok N ∧
      printMat toString N = .ok "[2,2]((1,2),(3,4))") := by
  have hI2 := hI
  obtain ⟨hn0, hc0, _⟩ := hI2
  have hnumel : M.numel = M.nrow * M.ncol := rfl
  refine ⟨?_, ?_, ?_, ?_, ?_⟩
  · intro hnum
    unfold printMat
    rw [if_pos (by simp [Matrix.empty, hnum])]
  · intro hnum
    unfold printMat
    rw [if_neg (by simp [Matrix.empty, hnum]), if_pos hnum]
    exact printScalar_fmt f M hI hnum
  · intro hc1 hr1
    have hne : M.numel = M.nrow := by rw [hnumel, hc1, Int.mul_one]
    unfold printMat
    rw [if_neg (by simp [Matrix.empty]; omega), if_neg (by omega),
        if_pos (show M.size2 = 1 from hc1)]
    exact printVector_fmt f M hI (by omega) (by omega)
  · intro hc2 hr
    have hcle : 1 * M.ncol ≤ M.nrow * M.ncol :=
      Int.mul_le_mul_of_nonneg_right hr (by omega)
    rw [Int.one_mul] at hcle
    have hge2 : (2:Int) ≤ M.numel := by
      rw [hnumel]
      omega
    unfold printMat
    rw [if_neg (show ¬ (M.empty = true) by simp only [Matrix.empty, beq_iff_eq]; omega),
        if_neg (show ¬ M.numel = 1 by omega),
        if_neg (show ¬ M.size2 = 1 by show ¬ M.ncol = 1; omega)]
    exact printMatrix_fmt f M hI hr (by omega)
  · refine ⟨{ nrow := 2, ncol := 2, values := [1,2,3,4], col_ := [0,1,0,1],
              rowind_ := [0,2,4] }, rfl, ?_⟩
    rfl

/-- Witness for C9: the empty matrix prints as the literal empty-expression
marker. -/
theorem spec_C9_witness :
    printMat toString (makeEmpty 0 0 : Matrix Int) = .ok "<empty expression>" :=
  (spec_C9 toString (makeEmpty 0 0 : Matrix Int) (by decide)).1 (by decide)

end CasADi
